import Mathlib

/-!
# Verification of the watermark-removal service

A shallow embedding of the watermark-removal pipeline
(`app/models.py`, `app/services.py`, `app/main.py`) together with proofs
about the mask geometry, the error-wrapping boundaries, the batch
coordinator, the response encoder, the request validator, the base64
encoding relation between the two response formats, and the
double-checked-locking initialization of the inpainting engine.

Machine integers do not overflow in the modelled code paths (Python
integers are unbounded), so coordinates are embedded as `Int` and byte
values as `Nat`.
-/

/-! ## Data model: `WatermarkRegion` (app/models.py) -/

/-- `WatermarkRegion` from `app/models.py`: a rectangle anchored to the
bottom-right corner of an image.  The pydantic field constraints
(`width, height > 0`, `offset_x, offset_y ≥ 0`) are stated separately as
`WatermarkRegion.Valid`. -/
structure WatermarkRegion where
  width : Int
  height : Int
  offset_x : Int
  offset_y : Int
deriving DecidableEq, Repr

/-- The pydantic validation constraints on `WatermarkRegion`
(`gt=0` on `width`/`height`, `ge=0` on the offsets). -/
def WatermarkRegion.Valid (r : WatermarkRegion) : Prop :=
  0 < r.width ∧ 0 < r.height ∧ 0 ≤ r.offset_x ∧ 0 ≤ r.offset_y

instance (r : WatermarkRegion) : Decidable r.Valid := by
  unfold WatermarkRegion.Valid; infer_instance

/-! ## MaskGenerator: `create_mask` (app/services.py lines 31-43) -/

/-- Whether pixel `(x, y)` of a `W × H` canvas is painted by an accepted
`ImageDraw.rectangle([(x0, y0), (x1, y1)], fill=...)` call: Pillow fills
the closed rectangle including both corner pixels and clips the filled
region to the canvas (coordinates beyond the canvas are clamped, not
errors).  Modern Pillow (>= 5.3) first validates the corner order and
raises `ValueError` when `x1 < x0` or `y1 < y0`; that failure condition
is modelled by `create_mask_raises` / `create_mask_checked`, so this
predicate only describes calls with `x0 ≤ x1` and `y0 ≤ y1`. -/
def pilRectanglePixel (W H x0 y0 x1 y1 x y : Int) : Bool :=
  decide (0 ≤ x ∧ x < W ∧ 0 ≤ y ∧ y < H ∧
    x0 ≤ x ∧ x ≤ x1 ∧ y0 ≤ y ∧ y ≤ y1)

/-- `create_mask` from `app/services.py`: the generated mask as the map
from pixel coordinates to the pixel value (`255` inside the drawn
rectangle, `0` elsewhere).  Mirrors the source computation of
`rect_width`, `rect_height`, `right`, `bottom`, `left`, `top` and the
single `draw.rectangle([(left, top), (right, bottom)], fill=255)` call
on a fresh all-zero `L`-mode image of size `image_size`.  This is the
drawn bitmap of an accepted call; the draw call raises (and no mask
exists) exactly under the condition `create_mask_raises`, reached when
an offset exceeds the corresponding image dimension. -/
def create_mask (image_size : Int × Int) (region : WatermarkRegion) :
    Int → Int → Nat := fun x y =>
  let width := image_size.1
  let height := image_size.2
  let rect_width := min region.width width
  let rect_height := min region.height height
  let right := width - region.offset_x
  let bottom := height - region.offset_y
  let left := max 0 (right - rect_width)
  let top := max 0 (bottom - rect_height)
  if pilRectanglePixel width height left top right bottom x y then 255 else 0

/-- The failure condition of the `draw.rectangle` call in `create_mask`
under modern Pillow (>= 5.3): the corners are passed as
`[(left, top), (right, bottom)]`, and the call raises
`ValueError("x1 must be greater than or equal to x0")` (resp. `y1`/`y0`)
when `right < left` (resp. `bottom < top`) — reached by `create_mask`
exactly when `offset_x > width` or `offset_y > height`. -/
def create_mask_raises (image_size : Int × Int) (region : WatermarkRegion) :
    Bool :=
  let width := image_size.1
  let height := image_size.2
  let rect_width := min region.width width
  let rect_height := min region.height height
  let right := width - region.offset_x
  let bottom := height - region.offset_y
  let left := max 0 (right - rect_width)
  let top := max 0 (bottom - rect_height)
  decide (right < left ∨ bottom < top)

/-- Modelled from the spec's words, for comparison with `create_mask`
(claim about the mask's "remove" rectangle): the 255 region is exactly
`region.width` pixels wide and `region.height` pixels tall with its
bottom-right corner at `(W - offset_x, H - offset_y)`, i.e. the pixels
`W - offset_x - width < x ≤ W - offset_x` and
`H - offset_y - height < y ≤ H - offset_y`, all other pixels 0. -/
def claimedMask (image_size : Int × Int) (region : WatermarkRegion) :
    Int → Int → Nat := fun x y =>
  let W := image_size.1
  let H := image_size.2
  if (0 ≤ x ∧ x < W ∧ 0 ≤ y ∧ y < H ∧
      W - region.offset_x - region.width < x ∧ x ≤ W - region.offset_x ∧
      H - region.offset_y - region.height < y ∧ y ≤ H - region.offset_y)
  then 255 else 0

/-! ### Claim C1 -/

/-- **C1 (counterexample).** The claim says the 255 rectangle of
`create_mask` is exactly `region.width` pixels wide with bottom-right
corner at `(W - offset_x, H - offset_y)`.  On a 4×4 image with region
2×2 at offsets (1, 1) — wholly in bounds — the code paints pixel
`(1, 1)` with 255, which lies outside the claimed 2×2 rectangle
`[2..3] × [2..3]`: the painted rectangle is 3 pixels wide, not 2. -/
theorem create_mask_claim_counterexample :
    create_mask (4, 4) ⟨2, 2, 1, 1⟩ 1 1 = 255 ∧
    claimedMask (4, 4) ⟨2, 2, 1, 1⟩ 1 1 = 0 := by
  decide

/-- Characterization of the 255 pixels of `create_mask`, by unfolding
the drawn rectangle. -/
theorem create_mask_eq_255 (W H : Int) (r : WatermarkRegion) (x y : Int) :
    create_mask (W, H) r x y = 255 ↔
      (0 ≤ x ∧ x < W ∧ 0 ≤ y ∧ y < H ∧
       max 0 (W - r.offset_x - min r.width W) ≤ x ∧ x ≤ W - r.offset_x ∧
       max 0 (H - r.offset_y - min r.height H) ≤ y ∧ y ≤ H - r.offset_y) := by
  simp only [create_mask, pilRectanglePixel, decide_eq_true_eq]
  split
  · next hc => exact iff_of_true rfl hc
  · next hc => exact iff_of_false (by norm_num) hc

/-- Every pixel of a `create_mask` mask is 0 or 255. -/
theorem create_mask_binary (s : Int × Int) (r : WatermarkRegion) (x y : Int) :
    create_mask s r x y = 0 ∨ create_mask s r x y = 255 := by
  simp only [create_mask]
  split
  · exact Or.inr rfl
  · exact Or.inl rfl

/-- **C1 (amended).** For every in-bounds region with offsets ≥ 1
(`offset_x + width ≤ W`, `offset_y + height ≤ H`), the 255 region of the
mask produced by `create_mask` is the *closed* pixel rectangle from
`(W - offset_x - width, H - offset_y - height)` to
`(W - offset_x, H - offset_y)`: it is `region.width + 1` pixels wide and
`region.height + 1` pixels tall, with its bottom-right corner at
`(W - offset_x, H - offset_y)`; all other pixels are 0. -/
theorem create_mask_closed_rect (W H : Int) (r : WatermarkRegion)
    (hw : 0 < r.width) (hh : 0 < r.height)
    (hx : 1 ≤ r.offset_x) (hy : 1 ≤ r.offset_y)
    (hxb : r.offset_x + r.width ≤ W) (hyb : r.offset_y + r.height ≤ H) :
    ∀ x y, create_mask (W, H) r x y = 255 ↔
      (W - r.offset_x - r.width ≤ x ∧ x ≤ W - r.offset_x ∧
       H - r.offset_y - r.height ≤ y ∧ y ≤ H - r.offset_y) := by
  intro x y
  rw [create_mask_eq_255]
  omega

/-- **C1 (amended, witness).** Concrete instance: 4×4 image, 2×2 region
at offsets (1, 1); the theorem's hypotheses hold and pixel (1, 1) is
painted, lying in the closed rectangle `[1..3] × [1..3]`. -/
theorem create_mask_closed_rect_witness :
    ((0 : Int) < 2 ∧ (0 : Int) < 2 ∧ (1 : Int) ≤ 1 ∧ (1 : Int) ≤ 1 ∧
      (1 : Int) + 2 ≤ 4 ∧ (1 : Int) + 2 ≤ 4) ∧
    (create_mask (4, 4) ⟨2, 2, 1, 1⟩ 1 1 = 255 ↔
      ((4 : Int) - 1 - 2 ≤ 1 ∧ (1 : Int) ≤ 4 - 1 ∧
       (4 : Int) - 1 - 2 ≤ 1 ∧ (1 : Int) ≤ 4 - 1)) :=
  ⟨by norm_num,
   create_mask_closed_rect 4 4 ⟨2, 2, 1, 1⟩ (by norm_num) (by norm_num)
     (le_refl 1) (le_refl 1) (by norm_num) (by norm_num) 1 1⟩

/-! ## ResponseEncoder: base64 and PNG byte encodings
(`image_to_base64`, `image_to_bytes`, app/services.py lines 81-90)

Both functions serialize the image with `image.save(buffer, format="PNG")`
and differ only in whether the buffer's bytes are base64-encoded.  The
PNG codec is an external collaborator, embedded as an arbitrary
serialization function `save : Image → List Nat` producing the buffer's
bytes; `base64.b64encode` / `base64.b64decode` (standard RFC 4648
alphabet, as used by the Python `base64` module) are embedded
explicitly. -/

/-- The standard base64 alphabet used by `base64.b64encode`. -/
def b64Chars : List Char :=
  ("ABCDEFGHIJKLMNOPQRSTUVWXYZabcdefghijklmnopqrstuvwxyz0123456789+/").toList

/-- The alphabet character of a sextet value. -/
def sextetChar (n : Nat) : Char := b64Chars.getD n 'A'

/-- The sextet value of an alphabet character (the decode table). -/
def charSextet (c : Char) : Nat := b64Chars.indexOf c

/-- `base64.b64encode` on a byte list: 3-byte groups become 4 alphabet
characters; a trailing group of 1 or 2 bytes is padded with `=`. -/
def b64EncodeGroups : List Nat → List Char
  | b1 :: b2 :: b3 :: rest =>
      sextetChar (b1 / 4) ::
      sextetChar (b1 % 4 * 16 + b2 / 16) ::
      sextetChar (b2 % 16 * 4 + b3 / 64) ::
      sextetChar (b3 % 64) ::
      b64EncodeGroups rest
  | [b1, b2] =>
      [sextetChar (b1 / 4), sextetChar (b1 % 4 * 16 + b2 / 16),
       sextetChar (b2 % 16 * 4), '=']
  | [b1] =>
      [sextetChar (b1 / 4), sextetChar (b1 % 4 * 16), '=', '=']
  | [] => []

/-- `base64.b64decode` on the characters of a well-formed base64 string:
4-character groups become 3 bytes, with `=` padding ending the input. -/
def b64DecodeGroups : List Char → List Nat
  | c1 :: c2 :: c3 :: c4 :: rest =>
      if c3 = '=' then
        [charSextet c1 * 4 + charSextet c2 / 16]
      else if c4 = '=' then
        [charSextet c1 * 4 + charSextet c2 / 16,
         charSextet c2 % 16 * 16 + charSextet c3 / 4]
      else
        (charSextet c1 * 4 + charSextet c2 / 16) ::
        (charSextet c2 % 16 * 16 + charSextet c3 / 4) ::
        (charSextet c3 % 4 * 64 + charSextet c4) ::
        b64DecodeGroups rest
  | _ => []

/-- `base64.b64encode(...).decode("utf-8")`: the base64 text of a byte
list (the encoder emits ASCII, so decoding to text is the identity on
the characters). -/
def b64encode (bs : List Nat) : String := String.mk (b64EncodeGroups bs)

/-- `base64.b64decode` on a string. -/
def b64decode (s : String) : List Nat := b64DecodeGroups s.data

/-- `image_to_bytes` from `app/services.py`: serialize the image into a
fresh buffer and return the buffer's bytes.  The PNG codec
(`image.save`) is the external parameter `save`. -/
def image_to_bytes {Image : Type} (save : Image → List Nat) (image : Image) :
    List Nat := save image

/-- `image_to_base64` from `app/services.py`: serialize the image into a
fresh buffer and return the base64 text of the buffer's bytes. -/
def image_to_base64 {Image : Type} (save : Image → List Nat) (image : Image) :
    String := b64encode (save image)

/-- Decode table inverts the encode table on sextet values. -/
theorem charSextet_sextetChar : ∀ n < 64, charSextet (sextetChar n) = n := by
  decide

/-- No alphabet character is the padding character. -/
theorem sextetChar_ne_pad (n : Nat) : sextetChar n ≠ '=' := by
  by_cases h : n < 64
  · revert n
    decide
  · unfold sextetChar
    rw [List.getD_eq_default]
    · decide
    · simp only [not_lt] at h
      calc b64Chars.length = 64 := by decide
        _ ≤ n := h

/-- Base64 round trip: decoding the encoding of a byte list returns the
byte list. -/
theorem b64_roundtrip :
    ∀ (k : Nat) (bs : List Nat), bs.length ≤ k → (∀ b ∈ bs, b < 256) →
      b64DecodeGroups (b64EncodeGroups bs) = bs := by
  intro k
  induction k with
  | zero =>
    intro bs hlen _
    rw [List.length_eq_zero.mp (Nat.le_zero.mp hlen)]
    simp [b64EncodeGroups, b64DecodeGroups]
  | succ k ih =>
    intro bs hlen hb
    match bs with
    | [] => simp [b64EncodeGroups, b64DecodeGroups]
    | [b1] =>
      have h1 : b1 < 256 := hb b1 (by simp)
      simp only [b64EncodeGroups, b64DecodeGroups, if_pos rfl]
      rw [charSextet_sextetChar (b1 / 4) (by omega),
        charSextet_sextetChar (b1 % 4 * 16) (by omega)]
      simp only [if_true, List.cons.injEq, and_true]
      omega
    | [b1, b2] =>
      have h1 : b1 < 256 := hb b1 (by simp)
      have h2 : b2 < 256 := hb b2 (by simp)
      simp only [b64EncodeGroups, b64DecodeGroups,
        if_neg (sextetChar_ne_pad (b2 % 16 * 4)), if_pos rfl]
      rw [charSextet_sextetChar (b1 / 4) (by omega),
        charSextet_sextetChar (b1 % 4 * 16 + b2 / 16) (by omega),
        charSextet_sextetChar (b2 % 16 * 4) (by omega)]
      simp only [if_true, List.cons.injEq, and_true]
      omega
    | b1 :: b2 :: b3 :: rest =>
      have h1 : b1 < 256 := hb b1 (by simp)
      have h2 : b2 < 256 := hb b2 (by simp)
      have h3 : b3 < 256 := hb b3 (by simp)
      have hrest : b64DecodeGroups (b64EncodeGroups rest) = rest := by
        refine ih rest ?_ ?_
        · simp only [List.length_cons] at hlen; omega
        · intro b hbmem; exact hb b (by simp [hbmem])
      simp only [b64EncodeGroups, b64DecodeGroups,
        if_neg (sextetChar_ne_pad (b2 % 16 * 4 + b3 / 64)),
        if_neg (sextetChar_ne_pad (b3 % 64))]
      rw [charSextet_sextetChar (b1 / 4) (by omega),
        charSextet_sextetChar (b1 % 4 * 16 + b2 / 16) (by omega),
        charSextet_sextetChar (b2 % 16 * 4 + b3 / 64) (by omega),
        charSextet_sextetChar (b3 % 64) (by omega), hrest]
      simp only [List.cons.injEq, and_true]
      refine ⟨by omega, by omega, by omega⟩

/-- **C10.** For every image, the base64 string returned in base64
response mode decodes to exactly the bytes returned in file response
mode: `b64decode (image_to_base64 img) = image_to_bytes img`, for any
PNG serialization `save` producing bytes (values < 256).  The two
response formats therefore carry byte-identical PNG payloads. -/
theorem image_base64_decodes_to_bytes {Image : Type}
    (save : Image → List Nat) (image : Image)
    (hbytes : ∀ b ∈ save image, b < 256) :
    b64decode (image_to_base64 save image) = image_to_bytes save image := by
  unfold b64decode image_to_base64 image_to_bytes b64encode
  exact b64_roundtrip (save image).length (save image) le_rfl hbytes

/-- **C10 (witness).** A concrete serialization: the four PNG signature
bytes; the decoded base64 text equals the bytes. -/
theorem image_base64_decodes_to_bytes_witness :
    (∀ b ∈ ([137, 80, 78, 71] : List Nat), b < 256) ∧
    b64decode (image_to_base64 (fun _ : Nat => ([137, 80, 78, 71] : List Nat)) 0)
      = image_to_bytes (fun _ : Nat => ([137, 80, 78, 71] : List Nat)) 0 :=
  ⟨by decide,
   image_base64_decodes_to_bytes (fun _ : Nat => ([137, 80, 78, 71] : List Nat))
     0 (by decide)⟩

/-! ## Error taxonomy and model lifecycle (app/services.py)

Python exceptions are embedded as `PyExc`: the domain error
`WatermarkRemovalError` (carrying its message) or any other raised
exception (carrying its class name and message).  Fallible calls are
embedded as `Except PyExc`. -/

/-- A raised Python exception: either the domain error
`WatermarkRemovalError` of `app/services.py`, or any other exception. -/
inductive PyExc where
  | wre (msg : String)
  | other (cls msg : String)
deriving DecidableEq, Repr

/-- `str(exc)`: the message text of an exception. -/
def PyExc.text : PyExc → String
  | .wre m => m
  | .other _ m => m

/-- `create_mask` including its failure path: modern Pillow validates
the corner ordering of `draw.rectangle` and raises `ValueError` when
`x1 < x0` (or `y1 < y0`), which `create_mask` reaches when an offset
exceeds the corresponding image dimension; otherwise the call succeeds
and produces the drawn mask `create_mask image_size region`. -/
def create_mask_checked (image_size : Int × Int) (region : WatermarkRegion) :
    Except PyExc (Int → Int → Nat) :=
  let width := image_size.1
  let height := image_size.2
  let rect_width := min region.width width
  let rect_height := min region.height height
  let right := width - region.offset_x
  let bottom := height - region.offset_y
  let left := max 0 (right - rect_width)
  let top := max 0 (bottom - rect_height)
  if right < left then
    .error (.other "ValueError" "x1 must be greater than or equal to x0")
  else if bottom < top then
    .error (.other "ValueError" "y1 must be greater than or equal to y0")
  else .ok (create_mask image_size region)

/-! ### Claim C2 -/

/-- **C2 (code bug).** The claim (following the spec) says `create_mask`
clamps out-of-range regions and never raises, but the code does raise:
on a 2×2 image with a 5×5 region at `offset_x = 3`, the source computes
`right = -1`, `left = 0` and `draw.rectangle` receives `x1 = -1 < x0 = 0`,
so modern Pillow raises
`ValueError("x1 must be greater than or equal to x0")`.  For contrast,
offsets within the image dimensions do not trigger the failure. -/
theorem create_mask_raises_failing_input :
    create_mask_raises (2, 2) ⟨5, 5, 3, 0⟩ = true ∧
    create_mask_checked (2, 2) ⟨5, 5, 3, 0⟩
      = .error (.other "ValueError" "x1 must be greater than or equal to x0") ∧
    create_mask_raises (2, 2) ⟨5, 5, 2, 2⟩ = false :=
  ⟨by decide, rfl, by decide⟩

/-- `_default_model_factory` from `app/services.py`: importing
`simple_lama_inpainting` either succeeds (yielding a `SimpleLama`
instance, the external parameter `simpleLama`) or raises `ImportError`,
which the factory re-raises as a `WatermarkRemovalError`. -/
def default_model_factory {Model : Type} (importAvailable : Bool)
    (simpleLama : Model) : Except PyExc Model :=
  if importAvailable then .ok simpleLama
  else .error (.wre
    "simple-lama-inpainting is not installed. Install it via pip before running the service.")

/-- `LamaWatermarkRemover._ensure_model` from `app/services.py`, as a
sequential state transformer on the cached `self._model` field: if the
cache is set, return it; otherwise run the factory and cache the result.
If the factory raises, the exception propagates and the cache is left
unset.  Returns the call's outcome together with the new cache state. -/
def ensure_model {Model : Type} (factory : Except PyExc Model)
    (cached : Option Model) : Except PyExc Model × Option Model :=
  match cached with
  | some m => (.ok m, some m)
  | none =>
    match factory with
    | .error e => (.error e, none)
    | .ok m => (.ok m, some m)

/-! ### Claim C9 -/

/-- **C9.** If model construction fails, the caller of that
initialization attempt fails with the factory's error — for the default
factory's missing-dependency case, a `WatermarkRemovalError` (the
spec's `ModelUnavailable`) — the cached model stays unset, and a
subsequent call re-attempts construction: a later successful factory run
initializes the model, so the failure is not cached as permanent. -/
theorem ensure_model_failure_not_cached {Model : Type} (e : PyExc) (m : Model) :
    (ensure_model (.error e) (none : Option Model)).1 = .error e ∧
    (ensure_model (.error e) (none : Option Model)).2 = none ∧
    ensure_model (.ok m) (ensure_model (.error e) (none : Option Model)).2
      = (.ok m, some m) ∧
    (∀ importAvailable : Bool, importAvailable = false →
      ∃ msg, default_model_factory importAvailable m = .error (.wre msg)) :=
  ⟨rfl, rfl, rfl, fun _ h => by subst h; exact ⟨_, rfl⟩⟩

/-- **C9 (witness).** Concrete instance over `Model := Nat`: the failed
attempt leaves the cache unset and the retry constructs model `7`. -/
theorem ensure_model_failure_not_cached_witness :
    (ensure_model (.ok 7) (ensure_model (.error (.wre "boom")) (none : Option Nat)).2
      = (.ok 7, some 7)) ∧
    (∃ msg, default_model_factory false (7 : Nat) = .error (.wre msg)) :=
  ⟨(ensure_model_failure_not_cached (.wre "boom") 7).2.2.1,
   (ensure_model_failure_not_cached (.wre "boom") 7).2.2.2 false rfl⟩

/-! ## PipelineOrchestrator: `remove_watermark_from_url`
(app/services.py lines 93-111) -/

/-- `remove_watermark_from_url` from `app/services.py`.  The network
fetch and the inpainting call are external collaborators, embedded as
their outcomes: `fetchResult` is what `fetch_image(url)` returns or
raises, and `inpaintCall image mask` is what
`remover.inpaint(image, mask)` (dispatched to the executor) returns or
raises.  Any fetch exception is wrapped as
`WatermarkRemovalError("Failed to download image from {url}: {exc}")`;
the mask is generated by `create_mask(image.size, region)` at
services.py line 103, **outside both try blocks**, so an exception
raised by the draw call (`create_mask_checked`) escapes unwrapped; any
inpaint exception is wrapped as
`WatermarkRemovalError("Failed to inpaint image from {url}: {exc}")`. -/
def remove_watermark_from_url {Image : Type} (size : Image → Int × Int)
    (url : String) (region : WatermarkRegion)
    (fetchResult : Except PyExc Image)
    (inpaintCall : Image → (Int → Int → Nat) → Except PyExc Image) :
    Except PyExc Image :=
  match fetchResult with
  | .error exc =>
      .error (.wre ("Failed to download image from " ++ url ++ ": " ++ exc.text))
  | .ok image =>
    match create_mask_checked (size image) region with
    | .error exc => .error exc
    | .ok mask =>
      match inpaintCall image mask with
      | .error exc =>
          .error (.wre ("Failed to inpaint image from " ++ url ++ ": " ++ exc.text))
      | .ok cleaned => .ok cleaned

/-! ### Claim C3 -/

/-- Image-size map of the failing runs: every fetched image is a 2×2
bitmap. -/
def sizeW : Nat → Int × Int := fun _ => (2, 2)

/-- **C3 (code bug).** `mask = create_mask(image.size, region)` sits
outside both try blocks of `remove_watermark_from_url` (services.py
line 103).  With a successfully fetched 2×2 image and a region whose
`offset_x` exceeds the image width, the raw Pillow `ValueError` escapes
the boundary unwrapped: the pipeline neither returns a cleaned image
nor raises a `WatermarkRemovalError`, and the escaping error's message
does not carry the URL. -/
theorem remove_watermark_from_url_raw_escape :
    remove_watermark_from_url sizeW "https://img.example/a.png" ⟨5, 5, 3, 0⟩
        (Except.ok 0) (fun _ _ => .ok 0)
      = .error (.other "ValueError" "x1 must be greater than or equal to x0") ∧
    (∀ cleaned : Nat,
      remove_watermark_from_url sizeW "https://img.example/a.png" ⟨5, 5, 3, 0⟩
          (Except.ok 0) (fun _ _ => .ok 0) ≠ .ok cleaned) ∧
    (∀ m,
      remove_watermark_from_url sizeW "https://img.example/a.png" ⟨5, 5, 3, 0⟩
          (Except.ok 0) (fun _ _ => .ok 0) ≠ .error (.wre m)) := by
  have hval : remove_watermark_from_url sizeW "https://img.example/a.png"
      ⟨5, 5, 3, 0⟩ (Except.ok 0) (fun _ _ => .ok 0)
      = .error (.other "ValueError" "x1 must be greater than or equal to x0") :=
    rfl
  refine ⟨hval, ?_, ?_⟩
  · intro cleaned h
    rw [hval] at h
    simp at h
  · intro m h
    rw [hval] at h
    simp at h

/-! ## BatchCoordinator and endpoint (app/main.py) -/

/-- `asyncio.gather(*tasks)` at the level of the per-task outcomes: if
every task succeeds the results are returned in task order; otherwise
the gather call fails with a failing task's exception. -/
def gatherExcept {ε α : Type} : List (Except ε α) → Except ε (List α)
  | [] => .ok []
  | r :: rest =>
    match r with
    | .error e => .error e
    | .ok a =>
      match gatherExcept rest with
      | .error e => .error e
      | .ok xs => .ok (a :: xs)

/-- The `response_format` request field (`"base64"` or `"file"`). -/
inductive RespFormat where
  | base64
  | file
deriving DecidableEq, Repr

/-- The response produced by the `/v1/remove-watermark` endpoint:
the JSON list of `{source_url, cleaned_image_base64}` pairs, a single
streamed file, or a streamed ZIP archive (the archive is embedded as
its list of `(entry name, entry bytes)` pairs; the ZIP container
serialization is an external collaborator). -/
inductive Response where
  | base64Results (results : List (String × String))
  | singleFile (body : List Nat) (mediaType filename : String)
  | zipArchive (entries : List (String × List Nat)) (mediaType filename : String)
deriving DecidableEq, Repr

/-- What the endpoint handler does with the gathered batch: a normal
response, an `HTTPException` (client error), or an unhandled raw
exception propagating out of the handler. -/
inductive HandlerOutcome where
  | ok (r : Response)
  | clientError (status : Nat) (detail : String)
  | unhandled (e : PyExc)
deriving DecidableEq, Repr

/-- The ZIP-writing loop of `app/main.py`:
`for index, image in enumerate(cleaned_images, start=1):
archive.writestr(f"cleaned_{index}.png", image_to_bytes(image))`. -/
def zipEntries {Image : Type} (save : Image → List Nat) :
    Nat → List Image → List (String × List Nat)
  | _, [] => []
  | index, image :: rest =>
    ("cleaned_" ++ toString index ++ ".png", image_to_bytes save image) ::
    zipEntries save (index + 1) rest

/-- The response-shaping tail of the `remove_watermark` endpoint
(app/main.py lines 52-83), applied to the outcome of
`asyncio.gather`: a `WatermarkRemovalError` becomes
`HTTPException(status_code=400, detail=str(exc))` (any other exception
propagates unhandled); otherwise the cleaned images are encoded per the
requested response format. -/
def respond {Image : Type} (save : Image → List Nat) (urls : List String)
    (fmt : RespFormat) (gathered : Except PyExc (List Image)) :
    HandlerOutcome :=
  match gathered with
  | .error (.wre m) => .clientError 400 m
  | .error e => .unhandled e
  | .ok cleaned_images =>
    match fmt with
    | .base64 =>
      .ok (.base64Results
        ((urls.zip cleaned_images).map
          (fun p => (p.1, image_to_base64 save p.2))))
    | .file =>
      match cleaned_images with
      | [image] =>
        .ok (.singleFile (image_to_bytes save image) "image/png" "cleaned.png")
      | _ =>
        .ok (.zipArchive (zipEntries save 1 cleaned_images)
          "application/zip" "cleaned_images.zip")

/-- The `remove_watermark` endpoint handler of `app/main.py`: launch one
pipeline per URL (the per-URL pipeline outcome is the external parameter
`pipeline`, deterministic per URL as `remove_watermark_from_url` is for
fixed collaborator behaviour), gather them, and shape the response. -/
def remove_watermark {Image : Type} (save : Image → List Nat)
    (pipeline : String → Except PyExc Image) (fmt : RespFormat)
    (urls : List String) : HandlerOutcome :=
  respond save urls fmt (gatherExcept (urls.map pipeline))

/-! ### Completion-order model of the gather fan-in (for claim C5)

`asyncio.gather` stores each child's result into the slot of the
child's index as the children complete, in an arbitrary completion
order, and returns the slots in index order once all children have
completed.  `applyCompletions` plays a completion schedule (a list of
task indices); `readSlots` is the final index-ordered fan-in. -/

/-- Play a completion schedule: each completing task `i` stores its
outcome into slot `i`. -/
def applyCompletions {ε α : Type} (outcomes : List (Except ε α)) :
    List Nat → (Nat → Option (Except ε α)) → Nat → Option (Except ε α)
  | [], slots => slots
  | i :: rest, slots =>
    applyCompletions outcomes rest
      (fun j => if j = i then outcomes.get? i else slots j)

/-- Read `len` consecutive slots starting at `start`, failing if any is
still empty. -/
def readSlots {β : Type} (slots : Nat → Option β) : Nat → Nat → Option (List β)
  | _, 0 => some []
  | start, len + 1 =>
    match slots start, readSlots slots (start + 1) len with
    | some b, some bs => some (b :: bs)
    | _, _ => none

/-- The gather fan-in under an explicit completion schedule: `none` if
the schedule leaves some task incomplete, otherwise the index-ordered
outcome list. -/
def gatherSched {ε α : Type} (outcomes : List (Except ε α))
    (order : List Nat) : Option (List (Except ε α)) :=
  readSlots (applyCompletions outcomes order (fun _ => none)) 0 outcomes.length

/-- The endpoint handler with the gather fan-in made explicit: the
pipelines complete in the order given by `order`; `none` when the
schedule is incomplete (the gather is still pending). -/
def remove_watermark_sched {Image : Type} (save : Image → List Nat)
    (pipeline : String → Except PyExc Image) (fmt : RespFormat)
    (urls : List String) (order : List Nat) : Option HandlerOutcome :=
  (gatherSched (urls.map pipeline) order).map
    (fun outcomes => respond save urls fmt (gatherExcept outcomes))

/-! ## Request validation (app/models.py lines 33-45) -/

/-- The raw `images` field of a request body before validation: absent
(`None`), a single URL value, or a list of URL values. -/
inductive ImagesField where
  | missing
  | single (url : String)
  | listOf (urls : List String)
deriving DecidableEq, Repr

/-- `WatermarkRemovalRequest._normalize_images` from `app/models.py`:
a list must be non-empty (else `ValueError`), a missing field is a
`ValueError`, and a single value is wrapped into a one-element list. -/
def normalize_images : ImagesField → Except String (List String)
  | .listOf urls =>
    if urls.isEmpty then .error "images list must not be empty"
    else .ok urls
  | .missing => .error "images field is required"
  | .single url => .ok [url]

/-- The endpoint including request validation: FastAPI runs the pydantic
validator before the handler body, so a validation error is returned
(HTTP 422) without invoking any pipeline. -/
def endpoint {Image : Type} (save : Image → List Nat)
    (pipeline : String → Except PyExc Image) (fmt : RespFormat)
    (body : ImagesField) : Except String HandlerOutcome :=
  match normalize_images body with
  | .error e => .error e
  | .ok urls => .ok (remove_watermark save pipeline fmt urls)

/-! ## Helper lemmas about the gather fan-in and list indexing -/

/-- If every task succeeds, `gatherExcept` returns all results, one per
task. -/
theorem gatherExcept_all_ok {ε α : Type} :
    ∀ rs : List (Except ε α), (∀ r ∈ rs, ∃ a, r = .ok a) →
      ∃ xs, gatherExcept rs = .ok xs ∧ xs.length = rs.length := by
  intro rs
  induction rs with
  | nil => exact fun _ => ⟨[], rfl, rfl⟩
  | cons r rest ih =>
    intro h
    obtain ⟨a, ha⟩ := h r (List.mem_cons_self r rest)
    obtain ⟨xs, hxs, hlen⟩ := ih (fun r hr => h r (List.mem_cons_of_mem _ hr))
    subst ha
    refine ⟨a :: xs, ?_, by simp [hlen]⟩
    simp only [gatherExcept, hxs]

/-- `gatherExcept` over outcomes that are all `ok` returns exactly the
payload list. -/
theorem gatherExcept_map_ok {ε α : Type} :
    ∀ xs : List α, gatherExcept (ε := ε) (xs.map .ok) = .ok xs := by
  intro xs
  induction xs with
  | nil => rfl
  | cons x rest ih => simp only [List.map_cons, gatherExcept, ih]

/-- If some task failed with a domain error and no task failed with a
non-domain error, `gatherExcept` fails with a domain error that is one
of the tasks' errors. -/
theorem gatherExcept_first_error {α : Type} :
    ∀ rs : List (Except PyExc α),
      (∀ r ∈ rs, (∃ a, r = .ok a) ∨ ∃ m, r = .error (.wre m)) →
      (∃ r ∈ rs, ∃ m, r = .error (.wre m)) →
      ∃ m, gatherExcept rs = .error (.wre m) ∧
        Except.error (PyExc.wre m) ∈ rs := by
  intro rs
  induction rs with
  | nil => rintro _ ⟨r, hr, _⟩; cases hr
  | cons r rest ih =>
    rintro hall ⟨r', hr', m', hm'⟩
    rcases hall r (List.mem_cons_self r rest) with ⟨a, ha⟩ | ⟨m, hm⟩
    · subst ha
      have hrest : ∃ r ∈ rest, ∃ m, r = Except.error (PyExc.wre m) := by
        rcases List.mem_cons.mp hr' with h | h
        · exact absurd (h ▸ hm') (by simp)
        · exact ⟨r', h, m', hm'⟩
      obtain ⟨m, hg, hmem⟩ :=
        ih (fun r hr => hall r (List.mem_cons_of_mem _ hr)) hrest
      refine ⟨m, ?_, List.mem_cons_of_mem _ hmem⟩
      simp only [gatherExcept, hg]
    · subst hm
      exact ⟨m, by simp only [gatherExcept], List.mem_cons_self _ _⟩

/-- Indexing a zip of two lists. -/
theorem get?_zip_eq_some {α β : Type} :
    ∀ (l₁ : List α) (l₂ : List β) (i : Nat) (a : α) (b : β),
      l₁.get? i = some a → l₂.get? i = some b →
      (l₁.zip l₂).get? i = some (a, b) := by
  intro l₁
  induction l₁ with
  | nil => intro l₂ i a b h; simp at h
  | cons x xs ih =>
    intro l₂ i a b h₁ h₂
    match l₂, i with
    | [], _ => simp at h₂
    | y :: ys, 0 =>
      simp only [List.get?_cons_zero, Option.some.injEq] at h₁ h₂
      simp [List.zip_cons_cons, h₁, h₂]
    | y :: ys, i + 1 =>
      simp only [List.get?_cons_succ] at h₁ h₂
      simpa [List.zip_cons_cons] using ih ys i a b h₁ h₂

/-- Length of the ZIP-archive entry list. -/
theorem zipEntries_length {Image : Type} (save : Image → List Nat) :
    ∀ (images : List Image) (start : Nat),
      (zipEntries save start images).length = images.length := by
  intro images
  induction images with
  | nil => intro start; rfl
  | cons img rest ih => intro start; simp [zipEntries, ih]

/-- The `i`-th ZIP entry pairs the name `cleaned_{start+i}.png` with the
direct PNG encoding of the `i`-th image. -/
theorem zipEntries_get? {Image : Type} (save : Image → List Nat) :
    ∀ (images : List Image) (start i : Nat) (img : Image),
      images.get? i = some img →
      (zipEntries save start images).get? i
        = some ("cleaned_" ++ toString (start + i) ++ ".png",
            image_to_bytes save img) := by
  intro images
  induction images with
  | nil => intro start i img h; simp at h
  | cons hd rest ih =>
    intro start i img h
    match i with
    | 0 =>
      simp only [List.get?_cons_zero, Option.some.injEq] at h
      subst h
      simp [zipEntries]
    | i + 1 =>
      simp only [List.get?_cons_succ] at h
      simp only [zipEntries, List.get?_cons_succ]
      rw [show start + (i + 1) = start + 1 + i by omega]
      exact ih (start + 1) i img h

/-- A slot never written by the schedule keeps its value. -/
theorem applyCompletions_not_mem {ε α : Type} (outcomes : List (Except ε α)) :
    ∀ (order : List Nat) (slots : Nat → Option (Except ε α)) (i : Nat),
      i ∉ order → applyCompletions outcomes order slots i = slots i := by
  intro order
  induction order with
  | nil => intro slots i _; rfl
  | cons a rest ih =>
    intro slots i hi
    simp only [applyCompletions]
    rw [ih _ _ (fun h => hi (List.mem_cons_of_mem a h))]
    rw [if_neg (fun h : i = a => hi (by rw [h]; exact List.mem_cons_self a rest))]

/-- A slot whose task completes somewhere in the schedule ends up
holding that task's outcome, independently of the schedule order. -/
theorem applyCompletions_mem {ε α : Type} (outcomes : List (Except ε α)) :
    ∀ (order : List Nat) (slots : Nat → Option (Except ε α)) (i : Nat),
      i ∈ order → applyCompletions outcomes order slots i = outcomes.get? i := by
  intro order
  induction order with
  | nil => intro slots i hi; cases hi
  | cons a rest ih =>
    intro slots i hi
    by_cases hmem : i ∈ rest
    · simp only [applyCompletions]
      exact ih _ _ hmem
    · have hia : i = a := by
        rcases List.mem_cons.mp hi with h | h
        · exact h
        · exact absurd h hmem
      simp only [applyCompletions]
      rw [applyCompletions_not_mem outcomes rest _ i hmem]
      simp [hia]

/-- Reading consecutive filled slots returns the stored list. -/
theorem readSlots_eq {β : Type} (slots : Nat → Option β) :
    ∀ (l : List β) (start : Nat),
      (∀ j, j < l.length → slots (start + j) = l.get? j) →
      readSlots slots start l.length = some l := by
  intro l
  induction l with
  | nil => intro start _; rfl
  | cons b bs ih =>
    intro start h
    have h0 : slots start = some b := by
      have h' := h 0 (by simp)
      simpa using h'
    have hr : readSlots slots (start + 1) bs.length = some bs := by
      refine ih (start + 1) (fun j hj => ?_)
      have h' := h (j + 1) (by simp only [List.length_cons]; omega)
      rw [show start + 1 + j = start + (j + 1) by omega]
      simpa using h'
    simp only [List.length_cons, readSlots]
    rw [h0, hr]

/-- Fan-in by index: any completion schedule that covers every task
reconstructs the outcomes in task-index order. -/
theorem gatherSched_complete {ε α : Type} (outcomes : List (Except ε α))
    (order : List Nat) (hcov : ∀ i < outcomes.length, i ∈ order) :
    gatherSched outcomes order = some outcomes := by
  unfold gatherSched
  refine readSlots_eq _ outcomes 0 (fun j hj => ?_)
  rw [Nat.zero_add]
  exact applyCompletions_mem outcomes order _ j (hcov j hj)

/-! ### Claim C7 -/

/-- **C7.** Request validation normalizes a single URL into a
one-element list and rejects an empty URL list or a missing `images`
field with a validation error; on a validation error the endpoint's
result is the error itself and is independent of the pipeline, i.e. no
download, mask, or model work is performed. -/
theorem normalize_images_validation :
    (∀ url, normalize_images (.single url) = .ok [url]) ∧
    normalize_images (.listOf []) = .error "images list must not be empty" ∧
    normalize_images .missing = .error "images field is required" ∧
    (∀ f urls, normalize_images f = .ok urls → urls ≠ []) ∧
    (∀ (Image : Type) (save : Image → List Nat)
        (p₁ p₂ : String → Except PyExc Image) (fmt : RespFormat)
        (body : ImagesField) (e : String),
      normalize_images body = .error e →
      endpoint save p₁ fmt body = .error e ∧
      endpoint save p₁ fmt body = endpoint save p₂ fmt body) := by
  refine ⟨fun url => rfl, rfl, rfl, ?_, ?_⟩
  · intro f urls h
    match f with
    | .single url =>
      simp only [normalize_images, Except.ok.injEq] at h
      subst h; simp
    | .missing => simp [normalize_images] at h
    | .listOf us =>
      simp only [normalize_images] at h
      split at h
      · cases h
      · next hne =>
        simp only [Except.ok.injEq] at h
        subst h
        simpa [List.isEmpty_iff] using hne
  · intro Image save p₁ p₂ fmt body e h
    unfold endpoint
    rw [h]
    exact ⟨rfl, rfl⟩

/-- **C7 (witness).** The empty list is rejected with the validation
error, and the endpoint result does not depend on the pipeline. -/
theorem normalize_images_validation_witness :
    normalize_images (.listOf []) = .error "images list must not be empty" ∧
    endpoint (fun _ : Nat => ([] : List Nat)) (fun _ => .ok 0) .base64 (.listOf [])
      = .error "images list must not be empty" ∧
    endpoint (fun _ : Nat => ([] : List Nat)) (fun _ => .ok 0) .base64 (.listOf [])
      = endpoint (fun _ : Nat => ([] : List Nat))
          (fun _ => .error (.other "RuntimeError" "never-called")) .base64
          (.listOf []) :=
  ⟨normalize_images_validation.2.1,
   (normalize_images_validation.2.2.2.2 Nat (fun _ => [])
      (fun _ => .ok 0) (fun _ => .error (.other "RuntimeError" "never-called"))
      .base64 (.listOf []) "images list must not be empty"
      normalize_images_validation.2.1).1,
   (normalize_images_validation.2.2.2.2 Nat (fun _ => [])
      (fun _ => .ok 0) (fun _ => .error (.other "RuntimeError" "never-called"))
      .base64 (.listOf []) "images list must not be empty"
      normalize_images_validation.2.1).2⟩

/-! ### Claim C4 -/

/-- Fetch outcomes of the failing batch: `https://b` fails to download
(so its pipeline fails with the wrapped domain error); every other URL
yields a successfully fetched 2×2 image. -/
def fetchW (u : String) : Except PyExc Nat :=
  if u = "https://b" then .error (.other "HTTPStatusError" "boom") else .ok 0

/-- The per-URL pipeline of the failing batch: the real orchestrator run
with `fetchW`, an inpainting call that always succeeds, and a watermark
region whose `offset_x` exceeds the fetched image's width. -/
def pipeW (u : String) : Except PyExc Nat :=
  remove_watermark_from_url sizeW u ⟨5, 5, 3, 0⟩ (fetchW u) (fun _ _ => .ok 0)

/-- **C4 (code bug).** In the batch `[https://a, https://b]`, the
pipeline for `https://b` fails with a domain `WatermarkRemovalError`,
yet the batch does not fail with that pipeline's error as a client error
response: the pipeline for `https://a` fails raw (the mask `ValueError`
escaping the orchestrator), `asyncio.gather` propagates it, and the
handler's `except WatermarkRemovalError` does not catch it — the request
fails as an unhandled exception, not as an HTTP 400 client error. -/
theorem batch_domain_error_not_client_error :
    (∃ u ∈ (["https://a", "https://b"] : List String), ∃ m,
      pipeW u = .error (.wre m)) ∧
    remove_watermark (fun n : Nat => [n]) pipeW .base64
        ["https://a", "https://b"]
      = .unhandled (.other "ValueError" "x1 must be greater than or equal to x0") ∧
    (∀ status detail,
      remove_watermark (fun n : Nat => [n]) pipeW .base64
          ["https://a", "https://b"]
        ≠ .clientError status detail) := by
  have hval : remove_watermark (fun n : Nat => [n]) pipeW .base64
      ["https://a", "https://b"]
      = .unhandled
          (.other "ValueError" "x1 must be greater than or equal to x0") := by
    decide
  refine ⟨⟨"https://b", by decide,
    "Failed to download image from https://b: boom", rfl⟩, hval, ?_⟩
  intro status detail h
  rw [hval] at h
  simp at h

/-! ### Claim C6 -/

/-- **C6.** File response mode: when the gathered batch yields exactly
one cleaned image, the response is that image's raw PNG bytes with
attachment filename `cleaned.png`; when it yields two or more, the
response is a ZIP archive with filename `cleaned_images.zip` whose
`i`-th entry (in input order) is named `cleaned_{i+1}.png` and holds
exactly the direct PNG encoding of the `i`-th cleaned image. -/
theorem file_mode_response {Image : Type} (save : Image → List Nat)
    (pipeline : String → Except PyExc Image) (urls : List String)
    (images : List Image)
    (h : gatherExcept (urls.map pipeline) = .ok images) :
    (∀ img, images = [img] →
      remove_watermark save pipeline .file urls
        = .ok (.singleFile (image_to_bytes save img) "image/png" "cleaned.png")) ∧
    (2 ≤ images.length →
      remove_watermark save pipeline .file urls
        = .ok (.zipArchive (zipEntries save 1 images)
            "application/zip" "cleaned_images.zip") ∧
      (zipEntries save 1 images).length = images.length ∧
      ∀ i img, images.get? i = some img →
        (zipEntries save 1 images).get? i
          = some ("cleaned_" ++ toString (i + 1) ++ ".png",
              image_to_bytes save img)) := by
  constructor
  · intro img himg
    subst himg
    unfold remove_watermark respond
    rw [h]
  · intro hlen
    refine ⟨?_, zipEntries_length save images 1, ?_⟩
    · unfold remove_watermark respond
      rw [h]
      match images, hlen with
      | img1 :: img2 :: rest, _ => rfl
    · intro i img hi
      rw [show i + 1 = 1 + i by omega]
      exact zipEntries_get? save images 1 i img hi

/-- **C6 (witness).** A concrete two-image batch in file mode: the
response is the ZIP archive with entries `cleaned_1.png`, `cleaned_2.png`
holding the direct encodings of the two images, in input order. -/
theorem file_mode_response_witness :
    gatherExcept ((["https://a", "https://b"]).map
        (fun u => if u = "https://a" then (.ok 10 : Except PyExc Nat) else .ok 20))
      = .ok [10, 20] ∧
    remove_watermark (fun n : Nat => [n])
        (fun u => if u = "https://a" then .ok 10 else .ok 20) .file
        ["https://a", "https://b"]
      = .ok (.zipArchive [("cleaned_1.png", [10]), ("cleaned_2.png", [20])]
          "application/zip" "cleaned_images.zip") := by
  refine ⟨by rfl, ?_⟩
  have h := (file_mode_response (fun n : Nat => [n])
      (fun u => if u = "https://a" then .ok 10 else .ok 20)
      ["https://a", "https://b"] [10, 20] (by rfl)).2 (by norm_num)
  rw [h.1]
  rfl

/-! ### Claim C5 -/

/-- **C5.** Order preservation: for any completion schedule `order`
covering all pipelines (the fan-in is by task index, not completion
time), a batch whose pipelines all succeed produces, in base64 mode,
the same response as the index-ordered gather, and its `i`-th result
pairs the `i`-th input URL with the base64 encoding of the image cleaned
from that URL. -/
theorem batch_preserves_input_order {Image : Type} (save : Image → List Nat)
    (pipeline : String → Except PyExc Image) (urls : List String)
    (images : List Image) (order : List Nat)
    (hok : urls.map pipeline = images.map Except.ok)
    (hcov : ∀ i < urls.length, i ∈ order) :
    remove_watermark_sched save pipeline .base64 urls order
      = some (remove_watermark save pipeline .base64 urls) ∧
    ∃ results, remove_watermark save pipeline .base64 urls
        = .ok (.base64Results results) ∧
      ∀ i u, urls.get? i = some u →
        ∃ img, images.get? i = some img ∧ pipeline u = .ok img ∧
          results.get? i = some (u, image_to_base64 save img) := by
  have hlen : urls.length = images.length := by
    have := congrArg List.length hok
    simpa using this
  constructor
  · unfold remove_watermark_sched remove_watermark
    rw [gatherSched_complete (urls.map pipeline) order
      (by rw [List.length_map]; exact hcov)]
    rfl
  · refine ⟨(urls.zip images).map (fun p => (p.1, image_to_base64 save p.2)),
      ?_, ?_⟩
    · unfold remove_watermark respond
      rw [hok, gatherExcept_map_ok]
    · intro i u hu
      have hi : i < urls.length := by
        by_contra hge
        rw [List.get?_eq_none.mpr (by omega)] at hu
        cases hu
      have himg : ∃ img, images.get? i = some img := by
        rcases himg' : images.get? i with _ | img
        · rw [List.get?_eq_none] at himg'
          omega
        · exact ⟨img, rfl⟩
      obtain ⟨img, himg⟩ := himg
      have hpi : pipeline u = .ok img := by
        have h1 : (urls.map pipeline).get? i = some (pipeline u) := by
          rw [List.get?_map, hu]; rfl
        have h2 : (images.map (Except.ok : Image → Except PyExc Image)).get? i
            = some (Except.ok img) := by
          rw [List.get?_map, himg]; rfl
        rw [hok, h2] at h1
        exact (Option.some.injEq _ _ ▸ h1).symm
      refine ⟨img, himg, hpi, ?_⟩
      rw [List.get?_map, get?_zip_eq_some urls images i u img hu himg]
      rfl

/-- **C5 (witness).** Three URLs `[A, B, C]` whose pipelines complete in
the order `[C, A, B]`: the scheduled batch equals the index-ordered
batch, and the results pair each URL with its own cleaned image in input
order. -/
theorem batch_preserves_input_order_witness :
    remove_watermark_sched (fun n : Nat => [n])
        (fun u => if u = "A" then .ok 1 else if u = "B" then .ok 2 else .ok 3)
        .base64 ["A", "B", "C"] [2, 0, 1]
      = some (remove_watermark (fun n : Nat => [n])
          (fun u => if u = "A" then .ok 1 else if u = "B" then .ok 2 else .ok 3)
          .base64 ["A", "B", "C"]) ∧
    ∃ results, remove_watermark (fun n : Nat => [n])
          (fun u => if u = "A" then .ok 1 else if u = "B" then .ok 2 else .ok 3)
          .base64 ["A", "B", "C"]
        = .ok (.base64Results results) ∧
      ∀ i u, (["A", "B", "C"] : List String).get? i = some u →
        ∃ img, ([1, 2, 3] : List Nat).get? i = some img ∧
          (if u = "A" then (.ok 1 : Except PyExc Nat)
            else if u = "B" then .ok 2 else .ok 3) = .ok img ∧
          results.get? i = some (u, image_to_base64 (fun n : Nat => [n]) img) :=
  batch_preserves_input_order (fun n : Nat => [n])
    (fun u => if u = "A" then .ok 1 else if u = "B" then .ok 2 else .ok 3)
    ["A", "B", "C"] [1, 2, 3] [2, 0, 1] (by rfl) (by decide)

/-! ## InpaintingEngine initialization under concurrency
(`LamaWatermarkRemover._ensure_model`, app/services.py lines 57-62)

The double-checked locking protocol is embedded as an interleaving
transition system over `n` threads, each executing `_ensure_model` on
one shared engine.  Atomic steps: the outer unguarded read of
`self._model`, acquiring and releasing `self._lock`, the inner guarded
read, the factory call (counted by `builds`; the factory is assumed to
succeed with the fixed model `m₀` — the failure path is claim C9's
sequential model), the guarded write of `self._model`, and the final
read of `self._model` for `return`.  The factory call and the field
write are separate steps, both taken while holding the lock. -/

/-- Program counter of one thread running `_ensure_model`. -/
inductive ThreadPC (Model : Type) where
  | start
  | acquire
  | check2
  | build
  | assign
  | unlock
  | readRet
  | done (m : Model)

/-- Shared engine state plus the program counters of the `n` racing
threads.  `builds` counts factory invocations. -/
structure EngineState (Model : Type) (n : Nat) where
  model : Option Model
  lock : Option (Fin n)
  builds : Nat
  pcs : Fin n → ThreadPC Model

/-- The engine as constructed: no model, lock free, no factory calls,
every thread about to enter `_ensure_model`. -/
def initEngineState (Model : Type) (n : Nat) : EngineState Model n :=
  { model := none, lock := none, builds := 0, pcs := fun _ => .start }

/-- One interleaved step of the double-checked locking protocol. -/
inductive EngineStep {Model : Type} {n : Nat} (m₀ : Model) :
    EngineState Model n → EngineState Model n → Prop where
  | start_hit (s : EngineState Model n) (i : Fin n) (m : Model)
      (hpc : s.pcs i = .start) (hm : s.model = some m) :
      EngineStep m₀ s { s with pcs := Function.update s.pcs i .readRet }
  | start_miss (s : EngineState Model n) (i : Fin n)
      (hpc : s.pcs i = .start) (hm : s.model = none) :
      EngineStep m₀ s { s with pcs := Function.update s.pcs i .acquire }
  | lock_acquire (s : EngineState Model n) (i : Fin n)
      (hpc : s.pcs i = .acquire) (hl : s.lock = none) :
      EngineStep m₀ s
        { s with lock := some i, pcs := Function.update s.pcs i .check2 }
  | check2_miss (s : EngineState Model n) (i : Fin n)
      (hpc : s.pcs i = .check2) (hm : s.model = none) :
      EngineStep m₀ s { s with pcs := Function.update s.pcs i .build }
  | check2_hit (s : EngineState Model n) (i : Fin n) (m : Model)
      (hpc : s.pcs i = .check2) (hm : s.model = some m) :
      EngineStep m₀ s { s with pcs := Function.update s.pcs i .unlock }
  | factory_run (s : EngineState Model n) (i : Fin n)
      (hpc : s.pcs i = .build) :
      EngineStep m₀ s
        { s with builds := s.builds + 1,
                 pcs := Function.update s.pcs i .assign }
  | model_write (s : EngineState Model n) (i : Fin n)
      (hpc : s.pcs i = .assign) :
      EngineStep m₀ s
        { s with model := some m₀, pcs := Function.update s.pcs i .unlock }
  | lock_release (s : EngineState Model n) (i : Fin n)
      (hpc : s.pcs i = .unlock) (hl : s.lock = some i) :
      EngineStep m₀ s
        { s with lock := none, pcs := Function.update s.pcs i .readRet }
  | ret_read (s : EngineState Model n) (i : Fin n) (m : Model)
      (hpc : s.pcs i = .readRet) (hm : s.model = some m) :
      EngineStep m₀ s { s with pcs := Function.update s.pcs i (.done m) }

/-- Inductive invariant of the protocol: lock-protected critical
section, the model field only ever holds the factory's value, the model
is still unset while a thread is between the inner check and the write,
and `builds` counts 0 or 1 according to whether the construction has
happened (either already written, or sitting in a thread at `assign`). -/
structure EngineInv {Model : Type} {n : Nat} (m₀ : Model)
    (s : EngineState Model n) : Prop where
  mutex : ∀ i, (s.pcs i = .check2 ∨ s.pcs i = .build ∨ s.pcs i = .assign ∨
    s.pcs i = .unlock) → s.lock = some i
  model_val : ∀ m, s.model = some m → m = m₀
  crit_none : ∀ i, (s.pcs i = .build ∨ s.pcs i = .assign) → s.model = none
  builds_zero : s.model = none → (∀ i, s.pcs i ≠ .assign) → s.builds = 0
  builds_one : (s.model ≠ none ∨ ∃ i, s.pcs i = .assign) → s.builds = 1
  done_val : ∀ i m, s.pcs i = .done m → m = m₀

/-- The initial engine state satisfies the invariant. -/
theorem engineInv_init (Model : Type) (n : Nat) (m₀ : Model) :
    EngineInv m₀ (initEngineState Model n) := by
  refine ⟨?_, ?_, ?_, ?_, ?_, ?_⟩
  · intro i h
    rcases h with h | h | h | h <;> cases h
  · intro m h
    cases h
  · intro i h
    rcases h with h | h <;> cases h
  · intro _ _
    rfl
  · rintro (h | ⟨i, h⟩)
    · exact absurd rfl h
    · cases h
  · intro i m h
    cases h


/-- The invariant is preserved by every step of the protocol. -/
theorem engineInv_step {Model : Type} {n : Nat} {m₀ : Model}
    {s t : EngineState Model n} (inv : EngineInv m₀ s)
    (hstep : EngineStep m₀ s t) : EngineInv m₀ t := by
  obtain ⟨mutex, model_val, crit_none, builds_zero, builds_one, done_val⟩ := inv
  cases hstep with
  | start_hit i m hpc hm =>
    refine ⟨?_, model_val, ?_, ?_, ?_, ?_⟩
    · intro j hj
      dsimp only at hj
      by_cases hji : j = i
      · subst hji
        rw [Function.update_same] at hj
        rcases hj with h | h | h | h <;> cases h
      · rw [Function.update_noteq hji] at hj
        exact mutex j hj
    · intro j hj
      dsimp only at hj
      by_cases hji : j = i
      · subst hji
        rw [Function.update_same] at hj
        rcases hj with h | h <;> cases h
      · rw [Function.update_noteq hji] at hj
        exact crit_none j hj
    · intro hmn hna
      dsimp only at hna
      refine builds_zero hmn (fun j => ?_)
      by_cases hji : j = i
      · subst hji
        rw [hpc]
        intro h
        cases h
      · have h' := hna j
        rw [Function.update_noteq hji] at h'
        exact h'
    · intro h
      dsimp only at h
      refine builds_one ?_
      rcases h with h | ⟨j, hj⟩
      · exact Or.inl h
      · by_cases hji : j = i
        · subst hji
          rw [Function.update_same] at hj
          cases hj
        · rw [Function.update_noteq hji] at hj
          exact Or.inr ⟨j, hj⟩
    · intro j m' hj
      dsimp only at hj
      by_cases hji : j = i
      · subst hji
        rw [Function.update_same] at hj
        cases hj
      · rw [Function.update_noteq hji] at hj
        exact done_val j m' hj
  | start_miss i hpc hm =>
    refine ⟨?_, model_val, ?_, ?_, ?_, ?_⟩
    · intro j hj
      dsimp only at hj
      by_cases hji : j = i
      · subst hji
        rw [Function.update_same] at hj
        rcases hj with h | h | h | h <;> cases h
      · rw [Function.update_noteq hji] at hj
        exact mutex j hj
    · intro j hj
      dsimp only at hj
      by_cases hji : j = i
      · subst hji
        rw [Function.update_same] at hj
        rcases hj with h | h <;> cases h
      · rw [Function.update_noteq hji] at hj
        exact crit_none j hj
    · intro hmn hna
      dsimp only at hna
      refine builds_zero hmn (fun j => ?_)
      by_cases hji : j = i
      · subst hji
        rw [hpc]
        intro h
        cases h
      · have h' := hna j
        rw [Function.update_noteq hji] at h'
        exact h'
    · intro h
      dsimp only at h
      refine builds_one ?_
      rcases h with h | ⟨j, hj⟩
      · exact Or.inl h
      · by_cases hji : j = i
        · subst hji
          rw [Function.update_same] at hj
          cases hj
        · rw [Function.update_noteq hji] at hj
          exact Or.inr ⟨j, hj⟩
    · intro j m' hj
      dsimp only at hj
      by_cases hji : j = i
      · subst hji
        rw [Function.update_same] at hj
        cases hj
      · rw [Function.update_noteq hji] at hj
        exact done_val j m' hj
  | lock_acquire i hpc hl =>
    refine ⟨?_, model_val, ?_, ?_, ?_, ?_⟩
    · intro j hj
      dsimp only at hj
      by_cases hji : j = i
      · subst hji
        rfl
      · rw [Function.update_noteq hji] at hj
        have h2 := mutex j hj
        rw [hl] at h2
        cases h2
    · intro j hj
      dsimp only at hj
      by_cases hji : j = i
      · subst hji
        rw [Function.update_same] at hj
        rcases hj with h | h <;> cases h
      · rw [Function.update_noteq hji] at hj
        exact crit_none j hj
    · intro hmn hna
      dsimp only at hna
      refine builds_zero hmn (fun j => ?_)
      by_cases hji : j = i
      · subst hji
        rw [hpc]
        intro h
        cases h
      · have h' := hna j
        rw [Function.update_noteq hji] at h'
        exact h'
    · intro h
      dsimp only at h
      refine builds_one ?_
      rcases h with h | ⟨j, hj⟩
      · exact Or.inl h
      · by_cases hji : j = i
        · subst hji
          rw [Function.update_same] at hj
          cases hj
        · rw [Function.update_noteq hji] at hj
          exact Or.inr ⟨j, hj⟩
    · intro j m' hj
      dsimp only at hj
      by_cases hji : j = i
      · subst hji
        rw [Function.update_same] at hj
        cases hj
      · rw [Function.update_noteq hji] at hj
        exact done_val j m' hj
  | check2_miss i hpc hm =>
    refine ⟨?_, model_val, ?_, ?_, ?_, ?_⟩
    · intro j hj
      dsimp only at hj
      by_cases hji : j = i
      · subst hji
        exact mutex j (Or.inl hpc)
      · rw [Function.update_noteq hji] at hj
        exact mutex j hj
    · intro j hj
      dsimp only at hj
      by_cases hji : j = i
      · subst hji
        exact hm
      · rw [Function.update_noteq hji] at hj
        exact crit_none j hj
    · intro hmn hna
      dsimp only at hna
      refine builds_zero hmn (fun j => ?_)
      by_cases hji : j = i
      · subst hji
        rw [hpc]
        intro h
        cases h
      · have h' := hna j
        rw [Function.update_noteq hji] at h'
        exact h'
    · intro h
      dsimp only at h
      refine builds_one ?_
      rcases h with h | ⟨j, hj⟩
      · exact Or.inl h
      · by_cases hji : j = i
        · subst hji
          rw [Function.update_same] at hj
          cases hj
        · rw [Function.update_noteq hji] at hj
          exact Or.inr ⟨j, hj⟩
    · intro j m' hj
      dsimp only at hj
      by_cases hji : j = i
      · subst hji
        rw [Function.update_same] at hj
        cases hj
      · rw [Function.update_noteq hji] at hj
        exact done_val j m' hj
  | check2_hit i m hpc hm =>
    refine ⟨?_, model_val, ?_, ?_, ?_, ?_⟩
    · intro j hj
      dsimp only at hj
      by_cases hji : j = i
      · subst hji
        exact mutex j (Or.inl hpc)
      · rw [Function.update_noteq hji] at hj
        exact mutex j hj
    · intro j hj
      dsimp only at hj
      by_cases hji : j = i
      · subst hji
        rw [Function.update_same] at hj
        rcases hj with h | h <;> cases h
      · rw [Function.update_noteq hji] at hj
        exact crit_none j hj
    · intro hmn hna
      dsimp only at hna
      refine builds_zero hmn (fun j => ?_)
      by_cases hji : j = i
      · subst hji
        rw [hpc]
        intro h
        cases h
      · have h' := hna j
        rw [Function.update_noteq hji] at h'
        exact h'
    · intro h
      dsimp only at h
      refine builds_one ?_
      rcases h with h | ⟨j, hj⟩
      · exact Or.inl h
      · by_cases hji : j = i
        · subst hji
          rw [Function.update_same] at hj
          cases hj
        · rw [Function.update_noteq hji] at hj
          exact Or.inr ⟨j, hj⟩
    · intro j m' hj
      dsimp only at hj
      by_cases hji : j = i
      · subst hji
        rw [Function.update_same] at hj
        cases hj
      · rw [Function.update_noteq hji] at hj
        exact done_val j m' hj
  | factory_run i hpc =>
    refine ⟨?_, model_val, ?_, ?_, ?_, ?_⟩
    · intro j hj
      dsimp only at hj
      by_cases hji : j = i
      · subst hji
        exact mutex j (Or.inr (Or.inl hpc))
      · rw [Function.update_noteq hji] at hj
        exact mutex j hj
    · intro j hj
      dsimp only at hj
      by_cases hji : j = i
      · subst hji
        exact crit_none j (Or.inl hpc)
      · rw [Function.update_noteq hji] at hj
        exact crit_none j hj
    · intro _ hna
      dsimp only at hna
      exact absurd (Function.update_same i ThreadPC.assign s.pcs) (hna i)
    · intro _
      dsimp only
      have hb0 : s.builds = 0 := by
        refine builds_zero (crit_none i (Or.inl hpc)) (fun j hj => ?_)
        have h1 := mutex j (Or.inr (Or.inr (Or.inl hj)))
        have h2 := mutex i (Or.inr (Or.inl hpc))
        rw [h2] at h1
        injection h1 with h1
        rw [← h1, hpc] at hj
        cases hj
      omega
    · intro j m' hj
      dsimp only at hj
      by_cases hji : j = i
      · subst hji
        rw [Function.update_same] at hj
        cases hj
      · rw [Function.update_noteq hji] at hj
        exact done_val j m' hj
  | model_write i hpc =>
    refine ⟨?_, ?_, ?_, ?_, ?_, ?_⟩
    · intro j hj
      dsimp only at hj
      by_cases hji : j = i
      · subst hji
        exact mutex j (Or.inr (Or.inr (Or.inl hpc)))
      · rw [Function.update_noteq hji] at hj
        exact mutex j hj
    · intro m h
      dsimp only at h
      injection h with h
      exact h.symm
    · intro j hj
      dsimp only at hj
      by_cases hji : j = i
      · subst hji
        rw [Function.update_same] at hj
        rcases hj with h | h <;> cases h
      · rw [Function.update_noteq hji] at hj
        have h1 := mutex j (by
          rcases hj with h | h
          · exact Or.inr (Or.inl h)
          · exact Or.inr (Or.inr (Or.inl h)))
        have h2 := mutex i (Or.inr (Or.inr (Or.inl hpc)))
        rw [h2] at h1
        injection h1 with h1
        exact absurd h1.symm hji
    · intro hmn _
      dsimp only at hmn
      cases hmn
    · intro _
      exact builds_one (Or.inr ⟨i, hpc⟩)
    · intro j m' hj
      dsimp only at hj
      by_cases hji : j = i
      · subst hji
        rw [Function.update_same] at hj
        cases hj
      · rw [Function.update_noteq hji] at hj
        exact done_val j m' hj
  | lock_release i hpc hl =>
    refine ⟨?_, model_val, ?_, ?_, ?_, ?_⟩
    · intro j hj
      dsimp only at hj
      by_cases hji : j = i
      · subst hji
        rw [Function.update_same] at hj
        rcases hj with h | h | h | h <;> cases h
      · rw [Function.update_noteq hji] at hj
        have h1 := mutex j hj
        rw [hl] at h1
        injection h1 with h1
        exact absurd h1.symm hji
    · intro j hj
      dsimp only at hj
      by_cases hji : j = i
      · subst hji
        rw [Function.update_same] at hj
        rcases hj with h | h <;> cases h
      · rw [Function.update_noteq hji] at hj
        exact crit_none j hj
    · intro hmn hna
      dsimp only at hna
      refine builds_zero hmn (fun j => ?_)
      by_cases hji : j = i
      · subst hji
        rw [hpc]
        intro h
        cases h
      · have h' := hna j
        rw [Function.update_noteq hji] at h'
        exact h'
    · intro h
      dsimp only at h
      refine builds_one ?_
      rcases h with h | ⟨j, hj⟩
      · exact Or.inl h
      · by_cases hji : j = i
        · subst hji
          rw [Function.update_same] at hj
          cases hj
        · rw [Function.update_noteq hji] at hj
          exact Or.inr ⟨j, hj⟩
    · intro j m' hj
      dsimp only at hj
      by_cases hji : j = i
      · subst hji
        rw [Function.update_same] at hj
        cases hj
      · rw [Function.update_noteq hji] at hj
        exact done_val j m' hj
  | ret_read i m hpc hm =>
    refine ⟨?_, model_val, ?_, ?_, ?_, ?_⟩
    · intro j hj
      dsimp only at hj
      by_cases hji : j = i
      · subst hji
        rw [Function.update_same] at hj
        rcases hj with h | h | h | h <;> cases h
      · rw [Function.update_noteq hji] at hj
        exact mutex j hj
    · intro j hj
      dsimp only at hj
      by_cases hji : j = i
      · subst hji
        rw [Function.update_same] at hj
        rcases hj with h | h <;> cases h
      · rw [Function.update_noteq hji] at hj
        exact crit_none j hj
    · intro hmn hna
      dsimp only at hna
      refine builds_zero hmn (fun j => ?_)
      by_cases hji : j = i
      · subst hji
        rw [hpc]
        intro h
        cases h
      · have h' := hna j
        rw [Function.update_noteq hji] at h'
        exact h'
    · intro h
      dsimp only at h
      refine builds_one ?_
      rcases h with h | ⟨j, hj⟩
      · exact Or.inl h
      · by_cases hji : j = i
        · subst hji
          rw [Function.update_same] at hj
          cases hj
        · rw [Function.update_noteq hji] at hj
          exact Or.inr ⟨j, hj⟩
    · intro j m' hj
      dsimp only at hj
      by_cases hji : j = i
      · subst hji
        rw [Function.update_same] at hj
        injection hj with h
        rw [← h]
        exact model_val m hm
      · rw [Function.update_noteq hji] at hj
        exact done_val j m' hj

/-! ### Claim C8 -/

/-- **C8.** In every state reachable by any interleaving of any number
of threads racing through `_ensure_model` on one engine instance, at
most one underlying model construction has occurred (`builds ≤ 1`), and
every caller that has returned observed the same constructed model
instance `m₀`. -/
theorem engine_single_construction {Model : Type} {n : Nat} (m₀ : Model)
    (s : EngineState Model n)
    (h : Relation.ReflTransGen (EngineStep m₀) (initEngineState Model n) s) :
    s.builds ≤ 1 ∧ ∀ i m, s.pcs i = .done m → m = m₀ := by
  have inv : EngineInv m₀ s := by
    induction h with
    | refl => exact engineInv_init Model n m₀
    | tail _ hstep ih => exact engineInv_step ih hstep
  refine ⟨?_, inv.done_val⟩
  by_cases hc : s.model ≠ none ∨ ∃ i, s.pcs i = .assign
  · exact le_of_eq (inv.builds_one hc)
  · push_neg at hc
    rw [inv.builds_zero hc.1 hc.2]
    omega

/-- Successive states of a single thread running the protocol to
completion (used as a concrete reachable execution). -/
def engTrace0 : EngineState Nat 1 := initEngineState Nat 1

def engTrace1 : EngineState Nat 1 :=
  { engTrace0 with pcs := Function.update engTrace0.pcs 0 .acquire }

def engTrace2 : EngineState Nat 1 :=
  { engTrace1 with
      lock := some 0
      pcs := Function.update engTrace1.pcs 0 .check2 }

def engTrace3 : EngineState Nat 1 :=
  { engTrace2 with pcs := Function.update engTrace2.pcs 0 .build }

def engTrace4 : EngineState Nat 1 :=
  { engTrace3 with
      builds := engTrace3.builds + 1
      pcs := Function.update engTrace3.pcs 0 .assign }

def engTrace5 : EngineState Nat 1 :=
  { engTrace4 with
      model := some 5
      pcs := Function.update engTrace4.pcs 0 .unlock }

def engTrace6 : EngineState Nat 1 :=
  { engTrace5 with
      lock := none
      pcs := Function.update engTrace5.pcs 0 .readRet }

def engTrace7 : EngineState Nat 1 :=
  { engTrace6 with pcs := Function.update engTrace6.pcs 0 (.done 5) }

/-- **C8 (witness).** A concrete complete execution of one thread
(miss, lock, inner miss, factory call, write, release, return): the
final state is reachable, has exactly `builds = 1 ≤ 1`, and its one
finished caller observed the constructed model. -/
theorem engine_single_construction_witness :
    Relation.ReflTransGen (EngineStep (5 : Nat)) (initEngineState Nat 1)
      engTrace7 ∧
    engTrace7.builds ≤ 1 ∧
    ∀ i m, engTrace7.pcs i = .done m → m = 5 := by
  have h01 : EngineStep (5 : Nat) engTrace0 engTrace1 :=
    EngineStep.start_miss engTrace0 0 rfl rfl
  have h12 : EngineStep (5 : Nat) engTrace1 engTrace2 :=
    EngineStep.lock_acquire engTrace1 0
      rfl rfl
  have h23 : EngineStep (5 : Nat) engTrace2 engTrace3 :=
    EngineStep.check2_miss engTrace2 0
      rfl rfl
  have h34 : EngineStep (5 : Nat) engTrace3 engTrace4 :=
    EngineStep.factory_run engTrace3 0
      rfl
  have h45 : EngineStep (5 : Nat) engTrace4 engTrace5 :=
    EngineStep.model_write engTrace4 0
      rfl
  have h56 : EngineStep (5 : Nat) engTrace5 engTrace6 :=
    EngineStep.lock_release engTrace5 0
      rfl rfl
  have h67 : EngineStep (5 : Nat) engTrace6 engTrace7 :=
    EngineStep.ret_read engTrace6 0 5
      rfl rfl
  have htrace : Relation.ReflTransGen (EngineStep (5 : Nat))
      (initEngineState Nat 1) engTrace7 :=
    Relation.ReflTransGen.head h01
      (Relation.ReflTransGen.head h12
        (Relation.ReflTransGen.head h23
          (Relation.ReflTransGen.head h34
            (Relation.ReflTransGen.head h45
              (Relation.ReflTransGen.head h56
                (Relation.ReflTransGen.head h67
                  Relation.ReflTransGen.refl))))))
  exact ⟨htrace,
    engine_single_construction 5 engTrace7 htrace⟩
